import Mathlib

/-!
Shallow embedding of the `Chain` / `StackChain` dispatch engine from
`src/chain.rs` of the `iron` repository.

Rust's mutable state is threaded explicitly: each middleware carries an
internal state value `st : St`, and its three operations return the updated
state together with the (possibly mutated) request and response.  Panics
(`fail!`) are modelled by `Option`-valued functions returning `none`.
Every middleware method invocation is additionally recorded in an event
trace, the observable needed to state call-order properties.
-/

namespace Iron

/-- The `Status` enum from `middleware.rs` (re-exported in `chain.rs`):
`Continue`, `Unwind`, or `Error(payload)` where the payload only needs a
stringification capability; we keep it abstract as a type `Err`. -/
inductive Status (Err : Type) where
  | Continue : Status Err
  | Unwind : Status Err
  | Error : Err → Status Err
deriving DecidableEq, Repr

/-- The private `ChainStatus` enum of `StackChain`:
`Unwound(uint)`, `Errored(uint)`, `Unhandled`. -/
inductive ChainStatus where
  | Unwound : Nat → ChainStatus
  | Errored : Nat → ChainStatus
  | Unhandled : ChainStatus
deriving DecidableEq, Repr

/-- Trace events: one per middleware method invocation, recording the
ordinal index of the middleware in the stack (and, for `on_error`, the
payload it received). -/
inductive Event (Err : Type) where
  | enterCall : Nat → Event Err
  | exitCall : Nat → Event Err
  | onErrorCall : Nat → Err → Event Err
deriving DecidableEq, Repr

/-- The three operations of the `Middleware` trait.  Each takes the
middleware's internal state and the request/response pair and returns the
updated versions; `enter` and `exit` also return a `Status`, `on_error`
returns unit (here: nothing extra) and receives the error payload. -/
structure MWImpl (Req Res Err St : Type) where
  enter : St → Req → Res → St × Req × Res × Status Err
  exit : St → Req → Res → St × Req × Res × Status Err
  on_error : St → Req → Res → Err → St × Req × Res

/-- A middleware instance: its current internal state plus its behaviour. -/
structure Middleware (Req Res Err St : Type) where
  st : St
  impl : MWImpl Req Res Err St

/-- `StackChain`: the ordered middleware storage (`stack: Vec<Box<Middleware>>`)
plus the traversal marker (`status: ChainStatus`). -/
structure StackChain (Req Res Err St : Type) where
  stack : List (Middleware Req Res Err St)
  status : ChainStatus

/-- Result of the enter-phase loop: the mutated stack, request, response,
the marker value to store, the `Status` to return, and the call trace. -/
structure EnterRun (Req Res Err St : Type) where
  stack : List (Middleware Req Res Err St)
  req : Req
  res : Res
  marker : ChainStatus
  status : Status Err
  trace : List (Event Err)

/-- Result of a reverse walk (`chain_exit` / `chain_error` loops). -/
structure Walk (Req Res Err St : Type) where
  stack : List (Middleware Req Res Err St)
  req : Req
  res : Res
  trace : List (Event Err)

/-- Result of `chain_enter`, `chain_exit` and `dispatch`: the updated
chain, request, response, the returned `Status`, and the call trace. -/
structure DispatchRun (Req Res Err St : Type) where
  chain : StackChain Req Res Err St
  req : Req
  res : Res
  status : Status Err
  trace : List (Event Err)

/-- Result of `chain_error` (the Rust method returns unit). -/
structure ErrorRun (Req Res Err St : Type) where
  chain : StackChain Req Res Err St
  req : Req
  res : Res
  trace : List (Event Err)

variable {Req Res Err St : Type}

/-- The `'enter` loop of `StackChain::chain_enter`: walk the stack in link
order with ordinal index `i`; on `Unwind` stop with marker `Unwound i`, on
`Error e` stop with marker `Errored i`, on `Continue` recurse; if the walk
completes, the marker is `Unhandled` and the status `Continue`. -/
def enterLoop : List (Middleware Req Res Err St) → Nat → Req → Res →
    EnterRun Req Res Err St
  | [], _, req, res =>
    ⟨[], req, res, ChainStatus.Unhandled, Status.Continue, []⟩
  | m :: rest, i, req, res =>
    let t := m.impl.enter m.st req res
    match t.2.2.2 with
    | Status.Unwind =>
      ⟨⟨t.1, m.impl⟩ :: rest, t.2.1, t.2.2.1, ChainStatus.Unwound i,
        Status.Unwind, [Event.enterCall i]⟩
    | Status.Error e =>
      ⟨⟨t.1, m.impl⟩ :: rest, t.2.1, t.2.2.1, ChainStatus.Errored i,
        Status.Error e, [Event.enterCall i]⟩
    | Status.Continue =>
      let w := enterLoop rest (i + 1) t.2.1 t.2.2.1
      ⟨⟨t.1, m.impl⟩ :: w.stack, w.req, w.res, w.marker, w.status,
        Event.enterCall i :: w.trace⟩

/-- `StackChain::chain_enter`: reset the marker to `Unhandled`, then run the
enter loop from index 0 and store the resulting marker. -/
def chain_enter (c : StackChain Req Res Err St) (req : Req) (res : Res) :
    DispatchRun Req Res Err St :=
  -- `self.status = Unhandled;` — the marker is reset first; the previous
  -- marker value is never read, the final marker comes from the loop alone.
  let w := enterLoop c.stack 0 req res
  ⟨⟨w.stack, w.marker⟩, w.req, w.res, w.status, w.trace⟩

/-- The reverse `exit` walk used by `chain_exit`
(`stack.mut_iter().rev()` over a slice): the suffix of the list is walked
first (higher indices), then the head; each handler's `exit` return value
is discarded (`let _ = middleware.exit(...)`). -/
def exitLoop : List (Middleware Req Res Err St) → Nat → Req → Res →
    Walk Req Res Err St
  | [], _, req, res => ⟨[], req, res, []⟩
  | m :: rest, i, req, res =>
    let w := exitLoop rest (i + 1) req res
    let t := m.impl.exit m.st w.req w.res
    ⟨⟨t.1, m.impl⟩ :: w.stack, t.2.1, t.2.2.1, w.trace ++ [Event.exitCall i]⟩

/-- `StackChain::chain_exit`: on `Unwound(i)` walk handlers `[0, i)` in
reverse (`mut_slice_to(i)`, which requires `i ≤ length` — out of range is a
panic, modelled as `none`); on `Unhandled` walk all handlers in reverse; on
`Errored(_)` it is `fail!` (modelled as `none`).  Returns `Continue`. -/
def chain_exit (c : StackChain Req Res Err St) (req : Req) (res : Res) :
    Option (DispatchRun Req Res Err St) :=
  match c.status with
  | ChainStatus.Unwound i =>
    if i ≤ c.stack.length then
      let w := exitLoop (c.stack.take i) 0 req res
      some ⟨⟨w.stack ++ c.stack.drop i, c.status⟩, w.req, w.res,
        Status.Continue, w.trace⟩
    else none
  | ChainStatus.Unhandled =>
    let w := exitLoop c.stack 0 req res
    some ⟨⟨w.stack, c.status⟩, w.req, w.res, Status.Continue, w.trace⟩
  | ChainStatus.Errored _ => none

/-- The reverse `on_error` walk used by `chain_error`; every handler
receives the same payload `e`. -/
def errorLoop : List (Middleware Req Res Err St) → Nat → Req → Res → Err →
    Walk Req Res Err St
  | [], _, req, res, _ => ⟨[], req, res, []⟩
  | m :: rest, i, req, res, e =>
    let w := errorLoop rest (i + 1) req res e
    let t := m.impl.on_error m.st w.req w.res e
    ⟨⟨t.1, m.impl⟩ :: w.stack, t.2.1, t.2.2,
      w.trace ++ [Event.onErrorCall i e]⟩

/-- `StackChain::chain_error`: valid only on `Errored(i)` (any other marker
is `fail!`, modelled as `none`); walks handlers `[0, i)` in reverse passing
the payload to each. -/
def chain_error (c : StackChain Req Res Err St) (req : Req) (res : Res)
    (e : Err) : Option (ErrorRun Req Res Err St) :=
  match c.status with
  | ChainStatus.Errored i =>
    if i ≤ c.stack.length then
      let w := errorLoop (c.stack.take i) 0 req res e
      some ⟨⟨w.stack ++ c.stack.drop i, c.status⟩, w.req, w.res, w.trace⟩
    else none
  | _ => none

/-- `Chain::dispatch` (default method): run `chain_enter`; if it produced
`Error(e)`, run `chain_error` with that payload; otherwise run
`chain_exit`, discarding its return value; in all cases return the status
produced by `chain_enter`. -/
def dispatch (c : StackChain Req Res Err St) (req : Req) (res : Res) :
    Option (DispatchRun Req Res Err St) :=
  let w := chain_enter c req res
  match w.status with
  | Status.Error e =>
    match chain_error w.chain w.req w.res e with
    | some er =>
      some ⟨er.chain, er.req, er.res, Status.Error e, w.trace ++ er.trace⟩
    | none => none
  | s =>
    match chain_exit w.chain w.req w.res with
    | some xr => some ⟨xr.chain, xr.req, xr.res, s, w.trace ++ xr.trace⟩
    | none => none

/-- `StackChain::link`: push the middleware onto the end of the stack. -/
def link (c : StackChain Req Res Err St) (m : Middleware Req Res Err St) :
    StackChain Req Res Err St :=
  ⟨c.stack ++ [m], c.status⟩

/-- `StackChain::new`: empty stack, marker `Unhandled`. -/
def new : StackChain Req Res Err St :=
  ⟨[], ChainStatus.Unhandled⟩

/-- The marker is index-consistent with the stack: any recorded index is at
most the stack length (every reachable `StackChain` satisfies this; see
`misuse_spec`). -/
def markerOk (c : StackChain Req Res Err St) : Bool :=
  match c.status with
  | ChainStatus.Unwound i => decide (i ≤ c.stack.length)
  | ChainStatus.Errored i => decide (i ≤ c.stack.length)
  | ChainStatus.Unhandled => true

/-! ### Basic lemmas about the three loops -/

lemma enterLoop_impls (s : List (Middleware Req Res Err St)) (i : Nat)
    (q : Req) (r : Res) :
    (enterLoop s i q r).stack.map (fun m => m.impl) =
      s.map (fun m => m.impl) := by
  induction s generalizing i q r with
  | nil => rfl
  | cons m rest ih =>
    cases h : (m.impl.enter m.st q r).2.2.2 <;> simp [enterLoop, h, ih]

lemma enterLoop_length (s : List (Middleware Req Res Err St)) (i : Nat)
    (q : Req) (r : Res) :
    (enterLoop s i q r).stack.length = s.length := by
  have h := congrArg List.length (enterLoop_impls s i q r)
  simpa using h

lemma exitLoop_impls (s : List (Middleware Req Res Err St)) (i : Nat)
    (q : Req) (r : Res) :
    (exitLoop s i q r).stack.map (fun m => m.impl) =
      s.map (fun m => m.impl) := by
  induction s generalizing i q r with
  | nil => rfl
  | cons m rest ih => simp [exitLoop, ih]

lemma exitLoop_trace (s : List (Middleware Req Res Err St)) (i : Nat)
    (q : Req) (r : Res) :
    (exitLoop s i q r).trace =
      ((List.range' i s.length).reverse).map Event.exitCall := by
  induction s generalizing i q r with
  | nil => rfl
  | cons m rest ih => simp [exitLoop, ih, List.range'_succ]

lemma errorLoop_impls (s : List (Middleware Req Res Err St)) (i : Nat)
    (q : Req) (r : Res) (e : Err) :
    (errorLoop s i q r e).stack.map (fun m => m.impl) =
      s.map (fun m => m.impl) := by
  induction s generalizing i q r with
  | nil => rfl
  | cons m rest ih => simp [errorLoop, ih]

lemma errorLoop_trace (s : List (Middleware Req Res Err St)) (i : Nat)
    (q : Req) (r : Res) (e : Err) :
    (errorLoop s i q r e).trace =
      ((List.range' i s.length).reverse).map (fun j => Event.onErrorCall j e)
    := by
  induction s generalizing i q r with
  | nil => rfl
  | cons m rest ih => simp [errorLoop, ih, List.range'_succ]

/-- The starting ordinal index only affects the marker and the trace; the
mutated stack, request, response and returned status are independent of it.
-/
lemma enterLoop_shift (s : List (Middleware Req Res Err St)) (i j : Nat)
    (q : Req) (r : Res) :
    (enterLoop s i q r).stack = (enterLoop s j q r).stack ∧
    (enterLoop s i q r).req = (enterLoop s j q r).req ∧
    (enterLoop s i q r).res = (enterLoop s j q r).res ∧
    (enterLoop s i q r).status = (enterLoop s j q r).status := by
  induction s generalizing i j q r with
  | nil => exact ⟨rfl, rfl, rfl, rfl⟩
  | cons m rest ih =>
    cases h : (m.impl.enter m.st q r).2.2.2 <;> simp [enterLoop, h]
    case Continue =>
      rcases ih (i + 1) (j + 1) (m.impl.enter m.st q r).2.1
        (m.impl.enter m.st q r).2.2.1 with ⟨h1, h2, h3, h4⟩
      exact ⟨h1, h2, h3, h4⟩

/-- If the whole walk continued, the marker is `Unhandled` and every handler
was entered, in link order. -/
lemma enterLoop_continue (s : List (Middleware Req Res Err St)) (i : Nat)
    (q : Req) (r : Res)
    (h : (enterLoop s i q r).status = Status.Continue) :
    (enterLoop s i q r).marker = ChainStatus.Unhandled ∧
    (enterLoop s i q r).trace = (List.range' i s.length).map Event.enterCall
    := by
  induction s generalizing i q r with
  | nil => exact ⟨rfl, rfl⟩
  | cons m rest ih =>
    cases hm : (m.impl.enter m.st q r).2.2.2 <;>
      simp [enterLoop, hm] at h ⊢
    case Continue =>
      rcases ih (i + 1) (m.impl.enter m.st q r).2.1
        (m.impl.enter m.st q r).2.2.1 h with ⟨h1, h2⟩
      exact ⟨h1, by simp [h2, List.range'_succ]⟩

/-- Shape of an enter walk: some number `n` of handlers is entered, in link
order; the stack beyond them is untouched; and the returned status and the
stored marker correspond (`Continue`/`Unhandled` with `n` the whole stack,
`Unwind`/`Unwound` or `Error`/`Errored` at the last entered index). -/
lemma enterLoop_shape (s : List (Middleware Req Res Err St)) (i : Nat)
    (q : Req) (r : Res) :
    ∃ n, n ≤ s.length ∧
      (enterLoop s i q r).trace = (List.range' i n).map Event.enterCall ∧
      (enterLoop s i q r).stack.drop n = s.drop n ∧
      (((enterLoop s i q r).status = Status.Continue ∧
          (enterLoop s i q r).marker = ChainStatus.Unhandled ∧
          n = s.length) ∨
       (∃ k, n = k + 1 ∧ (enterLoop s i q r).status = Status.Unwind ∧
          (enterLoop s i q r).marker = ChainStatus.Unwound (i + k)) ∨
       (∃ k e, n = k + 1 ∧ (enterLoop s i q r).status = Status.Error e ∧
          (enterLoop s i q r).marker = ChainStatus.Errored (i + k))) := by
  induction s generalizing i q r with
  | nil => exact ⟨0, by simp [enterLoop]⟩
  | cons m rest ih =>
    cases hm : (m.impl.enter m.st q r).2.2.2
    case Unwind =>
      refine ⟨1, by simp, ?_, ?_, Or.inr (Or.inl ⟨0, rfl, ?_, ?_⟩)⟩ <;>
        simp [enterLoop, hm, List.range'_succ]
    case Error e =>
      refine ⟨1, by simp, ?_, ?_, Or.inr (Or.inr ⟨0, e, rfl, ?_, ?_⟩)⟩ <;>
        simp [enterLoop, hm, List.range'_succ]
    case Continue =>
      rcases ih (i + 1) (m.impl.enter m.st q r).2.1
        (m.impl.enter m.st q r).2.2.1 with ⟨n, hn, htr, hdr, hcase⟩
      refine ⟨n + 1, by simpa using hn, ?_, ?_, ?_⟩
      · simp [enterLoop, hm, htr, List.range'_succ]
      · simp [enterLoop, hm, hdr]
      · rcases hcase with ⟨h1, h2, h3⟩ | ⟨k, hk, h1, h2⟩ | ⟨k, e, hk, h1, h2⟩
        · exact Or.inl (by simp [enterLoop, hm, h1, h2, h3])
        · refine Or.inr (Or.inl ⟨k + 1, by omega, ?_, ?_⟩) <;>
            simp [enterLoop, hm, h1, h2] <;> omega
        · refine Or.inr (Or.inr ⟨k + 1, e, by omega, ?_, ?_⟩) <;>
            simp [enterLoop, hm, h1, h2] <;> omega

/-- Decomposition of an enter walk over an appended list, when the first
part continues: the walk carries on into the second part at the shifted
index, with the mutated request/response threaded through. -/
lemma enterLoop_append_continue (xs ys : List (Middleware Req Res Err St))
    (i : Nat) (q : Req) (r : Res)
    (h : (enterLoop xs i q r).status = Status.Continue) :
    enterLoop (xs ++ ys) i q r =
      ⟨(enterLoop xs i q r).stack ++
         (enterLoop ys (i + xs.length) (enterLoop xs i q r).req
           (enterLoop xs i q r).res).stack,
       (enterLoop ys (i + xs.length) (enterLoop xs i q r).req
         (enterLoop xs i q r).res).req,
       (enterLoop ys (i + xs.length) (enterLoop xs i q r).req
         (enterLoop xs i q r).res).res,
       (enterLoop ys (i + xs.length) (enterLoop xs i q r).req
         (enterLoop xs i q r).res).marker,
       (enterLoop ys (i + xs.length) (enterLoop xs i q r).req
         (enterLoop xs i q r).res).status,
       (enterLoop xs i q r).trace ++
         (enterLoop ys (i + xs.length) (enterLoop xs i q r).req
           (enterLoop xs i q r).res).trace⟩ := by
  induction xs generalizing i q r with
  | nil => simp [enterLoop]
  | cons m rest ih =>
    cases hm : (m.impl.enter m.st q r).2.2.2 <;>
      simp [enterLoop, hm] at h ⊢
    case Continue =>
      rw [ih (i + 1) (m.impl.enter m.st q r).2.1
        (m.impl.enter m.st q r).2.2.1 h]
      simp [Nat.add_assoc, Nat.add_comm 1 rest.length]

/-- Decomposition of an enter walk over an appended list, when the first
part stops early: the second part is never reached. -/
lemma enterLoop_append_stop (xs ys : List (Middleware Req Res Err St))
    (i : Nat) (q : Req) (r : Res)
    (h : (enterLoop xs i q r).status ≠ Status.Continue) :
    enterLoop (xs ++ ys) i q r =
      ⟨(enterLoop xs i q r).stack ++ ys, (enterLoop xs i q r).req,
       (enterLoop xs i q r).res, (enterLoop xs i q r).marker,
       (enterLoop xs i q r).status, (enterLoop xs i q r).trace⟩ := by
  induction xs generalizing i q r with
  | nil => simp [enterLoop] at h
  | cons m rest ih =>
    cases hm : (m.impl.enter m.st q r).2.2.2 <;>
      simp [enterLoop, hm] at h ⊢
    case Continue =>
      rw [ih (i + 1) (m.impl.enter m.st q r).2.1
        (m.impl.enter m.st q r).2.2.1 h]
      simp

/-- If, whenever handlers `[0, k)` all continue, handler `k` (called at the
request/response state those handlers produced) also continues, then the
whole walk continues. -/
lemma enterLoop_all_continue (s : List (Middleware Req Res Err St))
    (q : Req) (r : Res)
    (h : ∀ k (hk : k < s.length),
      (enterLoop (s.take k) 0 q r).status = Status.Continue →
      ((s.get ⟨k, hk⟩).impl.enter (s.get ⟨k, hk⟩).st
        (enterLoop (s.take k) 0 q r).req
        (enterLoop (s.take k) 0 q r).res).2.2.2 = Status.Continue) :
    ∀ i, (enterLoop s i q r).status = Status.Continue := by
  induction s generalizing q r with
  | nil => intro i; rfl
  | cons m rest ih =>
    have h0 : (m.impl.enter m.st q r).2.2.2 = Status.Continue :=
      h 0 (by simp) rfl
    intro i
    have hrest : ∀ k (hk : k < rest.length),
        (enterLoop (rest.take k) 0 (m.impl.enter m.st q r).2.1
          (m.impl.enter m.st q r).2.2.1).status = Status.Continue →
        ((rest.get ⟨k, hk⟩).impl.enter (rest.get ⟨k, hk⟩).st
          (enterLoop (rest.take k) 0 (m.impl.enter m.st q r).2.1
            (m.impl.enter m.st q r).2.2.1).req
          (enterLoop (rest.take k) 0 (m.impl.enter m.st q r).2.1
            (m.impl.enter m.st q r).2.2.1).res).2.2.2 = Status.Continue := by
      intro k hk hkcont
      rcases enterLoop_shift (rest.take k) 1 0 (m.impl.enter m.st q r).2.1
        (m.impl.enter m.st q r).2.2.1 with ⟨hs1, hs2, hs3, hs4⟩
      have hpre : (enterLoop ((m :: rest).take (k + 1)) 0 q r).status
          = Status.Continue := by
        simp [List.take_succ_cons, enterLoop, h0, hs4, hkcont]
      have := h (k + 1) (by simpa using hk) hpre
      simpa [List.take_succ_cons, enterLoop, h0, hs2, hs3] using this
    have := ih (m.impl.enter m.st q r).2.1 (m.impl.enter m.st q r).2.2.1
      hrest (i + 1)
    simp [enterLoop, h0, this]

/-- An enter walk from index 0 splits at any position `k` whose strict
predecessors all continued: it is the walk over the first `k` handlers
followed by the walk starting at handler `k` itself, at index `k`, on the
request/response the first `k` handlers produced. -/
lemma enterLoop_split_at (s : List (Middleware Req Res Err St)) (k : Nat)
    (hk : k < s.length) (q : Req) (r : Res)
    (hcont : (enterLoop (s.take k) 0 q r).status = Status.Continue) :
    enterLoop s 0 q r =
      ⟨(enterLoop (s.take k) 0 q r).stack ++
         (enterLoop (s.get ⟨k, hk⟩ :: s.drop (k + 1)) k
           (enterLoop (s.take k) 0 q r).req
           (enterLoop (s.take k) 0 q r).res).stack,
       (enterLoop (s.get ⟨k, hk⟩ :: s.drop (k + 1)) k
         (enterLoop (s.take k) 0 q r).req
         (enterLoop (s.take k) 0 q r).res).req,
       (enterLoop (s.get ⟨k, hk⟩ :: s.drop (k + 1)) k
         (enterLoop (s.take k) 0 q r).req
         (enterLoop (s.take k) 0 q r).res).res,
       (enterLoop (s.get ⟨k, hk⟩ :: s.drop (k + 1)) k
         (enterLoop (s.take k) 0 q r).req
         (enterLoop (s.take k) 0 q r).res).marker,
       (enterLoop (s.get ⟨k, hk⟩ :: s.drop (k + 1)) k
         (enterLoop (s.take k) 0 q r).req
         (enterLoop (s.take k) 0 q r).res).status,
       (enterLoop (s.take k) 0 q r).trace ++
         (enterLoop (s.get ⟨k, hk⟩ :: s.drop (k + 1)) k
           (enterLoop (s.take k) 0 q r).req
           (enterLoop (s.take k) 0 q r).res).trace⟩ := by
  have hlen : (s.take k).length = k := by
    simp [List.length_take, Nat.min_eq_left (Nat.le_of_lt hk)]
  have hdrop : s.drop k = s.get ⟨k, hk⟩ :: s.drop (k + 1) := by
    simpa [List.get_eq_getElem] using List.drop_eq_getElem_cons hk
  conv_lhs => rw [← List.take_append_drop k s]
  rw [enterLoop_append_continue (s.take k) (s.drop k) 0 q r hcont]
  rw [hlen, Nat.zero_add, hdrop]

/-- C2: `chain_enter` walks the stack in link order starting at index 0.
If handlers `[0, k)` continued and handler `k` (at the state it is actually
called in) returns `Unwind`, the marker becomes `Unwound k`, `Unwind` is
returned and no later handler is touched; likewise `Error e` / `Errored k`;
if every handler continues, the marker is `Unhandled` and the result is
`Continue` with the full stack entered. -/
theorem chain_enter_spec (c : StackChain Req Res Err St) (req : Req)
    (res : Res) :
    (∃ n, n ≤ c.stack.length ∧
       (chain_enter c req res).trace = (List.range n).map Event.enterCall) ∧
    ((∀ k (hk : k < c.stack.length),
        (enterLoop (c.stack.take k) 0 req res).status = Status.Continue →
        ((c.stack.get ⟨k, hk⟩).impl.enter (c.stack.get ⟨k, hk⟩).st
          (enterLoop (c.stack.take k) 0 req res).req
          (enterLoop (c.stack.take k) 0 req res).res).2.2.2
          = Status.Continue) →
      (chain_enter c req res).status = Status.Continue ∧
      (chain_enter c req res).chain.status = ChainStatus.Unhandled ∧
      (chain_enter c req res).trace
        = (List.range c.stack.length).map Event.enterCall) ∧
    (∀ k (hk : k < c.stack.length),
      (enterLoop (c.stack.take k) 0 req res).status = Status.Continue →
      ((((c.stack.get ⟨k, hk⟩).impl.enter (c.stack.get ⟨k, hk⟩).st
           (enterLoop (c.stack.take k) 0 req res).req
           (enterLoop (c.stack.take k) 0 req res).res).2.2.2 = Status.Unwind →
         (chain_enter c req res).status = Status.Unwind ∧
         (chain_enter c req res).chain.status = ChainStatus.Unwound k ∧
         (chain_enter c req res).trace
           = (List.range (k + 1)).map Event.enterCall ∧
         (chain_enter c req res).chain.stack.drop (k + 1)
           = c.stack.drop (k + 1)) ∧
       (∀ e, ((c.stack.get ⟨k, hk⟩).impl.enter (c.stack.get ⟨k, hk⟩).st
           (enterLoop (c.stack.take k) 0 req res).req
           (enterLoop (c.stack.take k) 0 req res).res).2.2.2
             = Status.Error e →
         (chain_enter c req res).status = Status.Error e ∧
         (chain_enter c req res).chain.status = ChainStatus.Errored k ∧
         (chain_enter c req res).trace
           = (List.range (k + 1)).map Event.enterCall ∧
         (chain_enter c req res).chain.stack.drop (k + 1)
           = c.stack.drop (k + 1)))) := by
  refine ⟨?_, ?_, ?_⟩
  · rcases enterLoop_shape c.stack 0 req res with ⟨n, hn, htr, -, -⟩
    exact ⟨n, hn, by simp [chain_enter, htr, List.range_eq_range']⟩
  · intro h
    have hc := enterLoop_all_continue c.stack req res h 0
    rcases enterLoop_continue c.stack 0 req res hc with ⟨hm, ht⟩
    exact ⟨by simp [chain_enter, hc], by simp [chain_enter, hm],
      by simp [chain_enter, ht, List.range_eq_range']⟩
  · intro k hk hcont
    have hsplit := enterLoop_split_at c.stack k hk req res hcont
    have hwlen : (enterLoop (c.stack.take k) 0 req res).stack.length = k := by
      rw [enterLoop_length]
      simp [List.length_take, Nat.min_eq_left (Nat.le_of_lt hk)]
    have hwtr : (enterLoop (c.stack.take k) 0 req res).trace
        = (List.range' 0 k).map Event.enterCall := by
      rcases enterLoop_continue (c.stack.take k) 0 req res hcont with ⟨-, ht⟩
      rw [ht]
      simp [List.length_take, Nat.min_eq_left (Nat.le_of_lt hk)]
    have hdropgoal : ∀ mw : Middleware Req Res Err St,
        ((enterLoop (c.stack.take k) 0 req res).stack ++
          mw :: c.stack.drop (k + 1)).drop (k + 1)
        = c.stack.drop (k + 1) := by
      intro mw
      have hkk : k + 1
          = (enterLoop (c.stack.take k) 0 req res).stack.length + 1 := by
        rw [hwlen]
      rw [hkk, List.drop_append]
      rfl
    have htrgoal : (enterLoop (c.stack.take k) 0 req res).trace
        ++ [Event.enterCall k] = (List.range (k + 1)).map Event.enterCall := by
      rw [hwtr, List.range_succ]
      simp [List.range_eq_range']
    simp only [List.get_eq_getElem] at hsplit
    constructor
    · intro hstop
      simp only [List.get_eq_getElem] at hstop
      refine ⟨?_, ?_, ?_, ?_⟩ <;>
        simp [chain_enter, hsplit, enterLoop, hstop, htrgoal, hdropgoal]
    · intro e hstop
      simp only [List.get_eq_getElem] at hstop
      refine ⟨?_, ?_, ?_, ?_⟩ <;>
        simp [chain_enter, hsplit, enterLoop, hstop, htrgoal, hdropgoal]

/-- C3: `chain_exit` on `Unwound(i)` (with the marker index within range,
as every marker produced by `chain_enter` is) calls `exit` on exactly the
handlers `[0, i)` in strictly descending index order; on `Unhandled` it
calls `exit` on all handlers in strictly descending order; and whenever it
returns at all, it returns `Continue`. -/
theorem chain_exit_spec (c : StackChain Req Res Err St) (req : Req)
    (res : Res) :
    (∀ i, c.status = ChainStatus.Unwound i → i ≤ c.stack.length →
       ∃ w, chain_exit c req res = some w ∧ w.status = Status.Continue ∧
         w.trace = ((List.range i).reverse).map Event.exitCall) ∧
    (c.status = ChainStatus.Unhandled →
       ∃ w, chain_exit c req res = some w ∧ w.status = Status.Continue ∧
         w.trace = ((List.range c.stack.length).reverse).map Event.exitCall)
    ∧
    (∀ w, chain_exit c req res = some w → w.status = Status.Continue) := by
  refine ⟨?_, ?_, ?_⟩
  · intro i hs hi
    have hw : chain_exit c req res = some
        ⟨⟨(exitLoop (c.stack.take i) 0 req res).stack ++ c.stack.drop i,
          c.status⟩, (exitLoop (c.stack.take i) 0 req res).req,
         (exitLoop (c.stack.take i) 0 req res).res, Status.Continue,
         (exitLoop (c.stack.take i) 0 req res).trace⟩ := by
      simp [chain_exit, hs, hi]
    refine ⟨_, hw, rfl, ?_⟩
    simp [exitLoop_trace, List.length_take, Nat.min_eq_left hi,
      List.range_eq_range']
  · intro hs
    have hw : chain_exit c req res = some
        ⟨⟨(exitLoop c.stack 0 req res).stack, c.status⟩,
         (exitLoop c.stack 0 req res).req, (exitLoop c.stack 0 req res).res,
         Status.Continue, (exitLoop c.stack 0 req res).trace⟩ := by
      simp [chain_exit, hs]
    refine ⟨_, hw, rfl, ?_⟩
    simp [exitLoop_trace, List.range_eq_range']
  · intro w hw
    rcases hs : c.status with i | i | _
    · by_cases hi : i ≤ c.stack.length <;>
        simp [chain_exit, hs, hi] at hw
      rw [← hw]
    · simp [chain_exit, hs] at hw
    · simp [chain_exit, hs] at hw
      rw [← hw]

/-- C4: `chain_error` on `Errored(i)` (with the marker index within range)
calls `on_error` on exactly the handlers `[0, i)` in strictly descending
index order, passing the same payload `e` to every one of them; in
particular on `Errored(0)` no `on_error` is called at all. -/
theorem chain_error_spec (c : StackChain Req Res Err St) (req : Req)
    (res : Res) (e : Err) :
    (∀ i, c.status = ChainStatus.Errored i → i ≤ c.stack.length →
       ∃ w, chain_error c req res e = some w ∧
         w.trace = ((List.range i).reverse).map
           (fun j => Event.onErrorCall j e)) ∧
    (c.status = ChainStatus.Errored 0 →
       ∃ w, chain_error c req res e = some w ∧ w.trace = []) := by
  constructor
  · intro i hs hi
    have hw : chain_error c req res e = some
        ⟨⟨(errorLoop (c.stack.take i) 0 req res e).stack ++ c.stack.drop i,
          c.status⟩, (errorLoop (c.stack.take i) 0 req res e).req,
         (errorLoop (c.stack.take i) 0 req res e).res,
         (errorLoop (c.stack.take i) 0 req res e).trace⟩ := by
      simp [chain_error, hs, hi]
    refine ⟨_, hw, ?_⟩
    simp [errorLoop_trace, List.length_take, Nat.min_eq_left hi,
      List.range_eq_range']
  · intro hs
    have hw : chain_error c req res e = some
        ⟨⟨(errorLoop (c.stack.take 0) 0 req res e).stack ++ c.stack.drop 0,
          c.status⟩, (errorLoop (c.stack.take 0) 0 req res e).req,
         (errorLoop (c.stack.take 0) 0 req res e).res,
         (errorLoop (c.stack.take 0) 0 req res e).trace⟩ := by
      simp [chain_error, hs]
    exact ⟨_, hw, by simp [errorLoop]⟩

/-- Every marker `chain_enter` stores is index-consistent, and the stored
marker matches the returned status (`Continue`/`Unhandled`,
`Unwind`/`Unwound k`, `Error e`/`Errored k`, with `k` inside the stack). -/
lemma chain_enter_marker_cases (c : StackChain Req Res Err St) (req : Req)
    (res : Res) :
    ((chain_enter c req res).status = Status.Continue ∧
       (chain_enter c req res).chain.status = ChainStatus.Unhandled) ∨
    (∃ k, (chain_enter c req res).status = Status.Unwind ∧
       (chain_enter c req res).chain.status = ChainStatus.Unwound k ∧
       k < c.stack.length) ∨
    (∃ k e, (chain_enter c req res).status = Status.Error e ∧
       (chain_enter c req res).chain.status = ChainStatus.Errored k ∧
       k < c.stack.length) := by
  rcases enterLoop_shape c.stack 0 req res with ⟨n, hn, -, -, hcase⟩
  rcases hcase with ⟨h1, h2, -⟩ | ⟨k, hk, h1, h2⟩ | ⟨k, e, hk, h1, h2⟩
  · exact Or.inl ⟨by simp [chain_enter, h1], by simp [chain_enter, h2]⟩
  · exact Or.inr (Or.inl ⟨k, by simp [chain_enter, h1],
      by simpa using (by simp [chain_enter, h2] :
        (chain_enter c req res).chain.status = ChainStatus.Unwound (0 + k)),
      by omega⟩)
  · exact Or.inr (Or.inr ⟨k, e, by simp [chain_enter, h1],
      by simpa using (by simp [chain_enter, h2] :
        (chain_enter c req res).chain.status = ChainStatus.Errored (0 + k)),
      by omega⟩)

lemma chain_enter_stack_length (c : StackChain Req Res Err St) (req : Req)
    (res : Res) :
    (chain_enter c req res).chain.stack.length = c.stack.length := by
  simp [chain_enter, enterLoop_length]

lemma markerOk_chain_enter (c : StackChain Req Res Err St) (req : Req)
    (res : Res) : markerOk (chain_enter c req res).chain = true := by
  have hl := chain_enter_stack_length c req res
  rcases chain_enter_marker_cases c req res with ⟨-, h2⟩ | ⟨k, -, h2, hk⟩ |
    ⟨k, e, -, h2, hk⟩ <;> simp [markerOk, h2] <;> omega

/-- C5: calling `chain_exit` with an `Errored` marker, or `chain_error`
with a non-`Errored` marker, aborts (`fail!`, modelled as `none`);
conversely, on an index-consistent chain (and every chain `chain_enter`
leaves behind is index-consistent, last conjunct) the traversal whose
marker precondition holds does not abort. -/
theorem misuse_spec (c : StackChain Req Res Err St) (req : Req) (res : Res)
    (e : Err) :
    (∀ i, c.status = ChainStatus.Errored i → chain_exit c req res = none) ∧
    ((∀ i, c.status ≠ ChainStatus.Errored i) →
       chain_error c req res e = none) ∧
    (markerOk c = true → (∀ i, c.status ≠ ChainStatus.Errored i) →
       (chain_exit c req res).isSome = true) ∧
    (markerOk c = true → ∀ i, c.status = ChainStatus.Errored i →
       (chain_error c req res e).isSome = true) ∧
    (∀ (c' : StackChain Req Res Err St) (q : Req) (r : Res),
       markerOk (chain_enter c' q r).chain = true) := by
  refine ⟨?_, ?_, ?_, ?_, markerOk_chain_enter⟩
  · intro i hs
    simp [chain_exit, hs]
  · intro h
    rcases hs : c.status with i | i | _
    · simp [chain_error, hs]
    · exact absurd hs (h i)
    · simp [chain_error, hs]
  · intro hok h
    rcases hs : c.status with i | i | _
    · have hi : i ≤ c.stack.length := by
        simpa [markerOk, hs] using hok
      simp [chain_exit, hs, hi]
    · exact absurd hs (h i)
    · simp [chain_exit, hs]
  · intro hok i hs
    have hi : i ≤ c.stack.length := by
      simpa [markerOk, hs] using hok
    simp [chain_error, hs, hi]

/-- C6: the enter phase ignores the marker value left behind by any earlier
dispatch — `chain_enter` resets it, so its entire result is independent of
the incoming marker (and on an empty stack the stored marker is the reset
value `Unhandled`). -/
theorem chain_enter_resets_marker (c : StackChain Req Res Err St)
    (s : ChainStatus) (req : Req) (res : Res) :
    chain_enter { c with status := s } req res = chain_enter c req res ∧
    (chain_enter (StackChain.mk ([] : List (Middleware Req Res Err St)) s)
      req res).chain.status = ChainStatus.Unhandled :=
  ⟨rfl, rfl⟩

/-- C1: `dispatch` always returns (no abort is reachable from a fresh
enter phase), and it returns exactly the `Status` that `chain_enter`
produced.  If that status is not an error, the exit traversal runs (its
trace follows the enter trace) and its own return value is discarded; if it
is `Error e`, the error traversal runs with that very payload and
`Error e` is passed through verbatim. -/
theorem dispatch_spec (c : StackChain Req Res Err St) (req : Req)
    (res : Res) :
    ∃ d, dispatch c req res = some d ∧
      d.status = (chain_enter c req res).status ∧
      ((∀ e, (chain_enter c req res).status ≠ Status.Error e) →
        ∃ xr, chain_exit (chain_enter c req res).chain
            (chain_enter c req res).req (chain_enter c req res).res
            = some xr ∧
          d.chain = xr.chain ∧ d.req = xr.req ∧ d.res = xr.res ∧
          d.trace = (chain_enter c req res).trace ++ xr.trace ∧
          d.status = (chain_enter c req res).status) ∧
      (∀ e, (chain_enter c req res).status = Status.Error e →
        ∃ er, chain_error (chain_enter c req res).chain
            (chain_enter c req res).req (chain_enter c req res).res e
            = some er ∧
          d.chain = er.chain ∧ d.req = er.req ∧ d.res = er.res ∧
          d.trace = (chain_enter c req res).trace ++ er.trace ∧
          d.status = Status.Error e) := by
  have hl := chain_enter_stack_length c req res
  rcases chain_enter_marker_cases c req res with ⟨h1, h2⟩ | ⟨k, h1, h2, hk⟩ |
    ⟨k, e, h1, h2, hk⟩
  · have hx : (chain_exit (chain_enter c req res).chain
        (chain_enter c req res).req (chain_enter c req res).res).isSome
        = true := by
      simp [chain_exit, h2]
    rcases Option.isSome_iff_exists.mp hx with ⟨xr, hxr⟩
    refine ⟨⟨xr.chain, xr.req, xr.res, Status.Continue,
      (chain_enter c req res).trace ++ xr.trace⟩, ?_, by simp [h1], ?_, ?_⟩
    · simp [dispatch, h1, hxr]
    · intro _
      exact ⟨xr, hxr, rfl, rfl, rfl, rfl, by simp [h1]⟩
    · intro e he
      exact absurd (h1.symm.trans he) (by simp)
  · have hx : (chain_exit (chain_enter c req res).chain
        (chain_enter c req res).req (chain_enter c req res).res).isSome
        = true := by
      have hk' : k ≤ (chain_enter c req res).chain.stack.length := by omega
      simp [chain_exit, h2, hk']
    rcases Option.isSome_iff_exists.mp hx with ⟨xr, hxr⟩
    refine ⟨⟨xr.chain, xr.req, xr.res, Status.Unwind,
      (chain_enter c req res).trace ++ xr.trace⟩, ?_, by simp [h1], ?_, ?_⟩
    · simp [dispatch, h1, hxr]
    · intro _
      exact ⟨xr, hxr, rfl, rfl, rfl, rfl, by simp [h1]⟩
    · intro e he
      exact absurd (h1.symm.trans he) (by simp)
  · have hx : (chain_error (chain_enter c req res).chain
        (chain_enter c req res).req (chain_enter c req res).res e).isSome
        = true := by
      have hk' : k ≤ (chain_enter c req res).chain.stack.length := by omega
      simp [chain_error, h2, hk']
    rcases Option.isSome_iff_exists.mp hx with ⟨er, her⟩
    refine ⟨⟨er.chain, er.req, er.res, Status.Error e,
      (chain_enter c req res).trace ++ er.trace⟩, ?_, by simp [h1], ?_, ?_⟩
    · simp [dispatch, h1, her]
    · intro hne
      exact absurd h1 (hne e)
    · intro e' he'
      have he2 : e = e' := by
        have := h1.symm.trans he'
        exact Status.Error.inj this
      subst he2
      exact ⟨er, her, rfl, rfl, rfl, rfl, rfl⟩

/-- C8: a chain built by `new()` has no handlers, and dispatching it
returns `Continue`, leaves the request/response untouched and performs no
handler calls at all (empty trace). -/
theorem empty_chain_dispatch (req : Req) (res : Res) :
    dispatch (new : StackChain Req Res Err St) req res
      = some ⟨new, req, res, Status.Continue, []⟩ := rfl

lemma foldl_link_stack (ms : List (Middleware Req Res Err St))
    (c : StackChain Req Res Err St) :
    (List.foldl link c ms).stack = c.stack ++ ms := by
  induction ms generalizing c with
  | nil => simp
  | cons m rest ih => simp [ih, link]

/-- C9: `link` appends the middleware at the last ordinal position, leaving
every previously linked handler at its position; after any sequence of
`link` calls starting from `new` the handler order is exactly the insertion
order (so there is no upper bound on the number of linked handlers). -/
theorem link_spec (c : StackChain Req Res Err St)
    (m : Middleware Req Res Err St) (ms : List (Middleware Req Res Err St)) :
    (link c m).stack.length = c.stack.length + 1 ∧
    (∀ i, i < c.stack.length → (link c m).stack[i]? = c.stack[i]?) ∧
    (link c m).stack[c.stack.length]? = some m ∧
    (List.foldl link new ms).stack = ms := by
  refine ⟨by simp [link], ?_, ?_, ?_⟩
  · intro i hi
    simp [link, List.getElem?_append_left hi]
  · simp [link, List.getElem?_concat_length]
  · simp [foldl_link_stack, new]

lemma chain_enter_impls (c : StackChain Req Res Err St) (req : Req)
    (res : Res) :
    (chain_enter c req res).chain.stack.map (fun m => m.impl)
      = c.stack.map (fun m => m.impl) := by
  simp [chain_enter, enterLoop_impls]

lemma chain_exit_impls (c : StackChain Req Res Err St) (req : Req)
    (res : Res) (w : DispatchRun Req Res Err St)
    (h : chain_exit c req res = some w) :
    w.chain.stack.map (fun m => m.impl) = c.stack.map (fun m => m.impl) := by
  rcases hs : c.status with i | i | _
  · by_cases hi : i ≤ c.stack.length <;> simp [chain_exit, hs, hi] at h
    rw [← h, List.map_append, exitLoop_impls, ← List.map_append,
      List.take_append_drop]
  · simp [chain_exit, hs] at h
  · simp [chain_exit, hs] at h
    rw [← h]
    simp [exitLoop_impls]

lemma chain_error_impls (c : StackChain Req Res Err St) (req : Req)
    (res : Res) (e : Err) (w : ErrorRun Req Res Err St)
    (h : chain_error c req res e = some w) :
    w.chain.stack.map (fun m => m.impl) = c.stack.map (fun m => m.impl) := by
  rcases hs : c.status with i | i | _ <;> simp [chain_error, hs] at h
  by_cases hi : i ≤ c.stack.length <;> simp [hi] at h
  rw [← h, List.map_append, errorLoop_impls, ← List.map_append,
    List.take_append_drop]

lemma dispatch_impls (c : StackChain Req Res Err St) (req : Req) (res : Res)
    (d : DispatchRun Req Res Err St) (h : dispatch c req res = some d) :
    d.chain.stack.map (fun m => m.impl) = c.stack.map (fun m => m.impl) := by
  rcases hs : (chain_enter c req res).status with _ | _ | e
  · rcases hx : chain_exit (chain_enter c req res).chain
        (chain_enter c req res).req (chain_enter c req res).res with - | xr
      <;> simp [dispatch, hs, hx] at h
    rw [← h]
    exact (chain_exit_impls _ _ _ _ hx).trans (chain_enter_impls c req res)
  · rcases hx : chain_exit (chain_enter c req res).chain
        (chain_enter c req res).req (chain_enter c req res).res with - | xr
      <;> simp [dispatch, hs, hx] at h
    rw [← h]
    exact (chain_exit_impls _ _ _ _ hx).trans (chain_enter_impls c req res)
  · rcases hx : chain_error (chain_enter c req res).chain
        (chain_enter c req res).req (chain_enter c req res).res e with - | er
      <;> simp [dispatch, hs, hx] at h
    rw [← h]
    exact (chain_error_impls _ _ _ _ _ hx).trans (chain_enter_impls c req res)

/-- C10: none of the four traversals adds, removes or reorders linked
handlers: the resulting stack has the same length and the same handler
behaviours (`impl`) at the same positions — only internal states and the
marker may change. -/
theorem frame_spec (c : StackChain Req Res Err St) (req : Req) (res : Res)
    (e : Err) :
    ((chain_enter c req res).chain.stack.map (fun m => m.impl)
       = c.stack.map (fun m => m.impl) ∧
     (chain_enter c req res).chain.stack.length = c.stack.length) ∧
    (∀ w, chain_exit c req res = some w →
       w.chain.stack.map (fun m => m.impl) = c.stack.map (fun m => m.impl) ∧
       w.chain.stack.length = c.stack.length) ∧
    (∀ w, chain_error c req res e = some w →
       w.chain.stack.map (fun m => m.impl) = c.stack.map (fun m => m.impl) ∧
       w.chain.stack.length = c.stack.length) ∧
    (∀ d, dispatch c req res = some d →
       d.chain.stack.map (fun m => m.impl) = c.stack.map (fun m => m.impl) ∧
       d.chain.stack.length = c.stack.length) := by
  have hlen : ∀ s : List (Middleware Req Res Err St),
      s.map (fun m => m.impl) = c.stack.map (fun m => m.impl) →
      s.length = c.stack.length := by
    intro s hs
    have := congrArg List.length hs
    simpa using this
  refine ⟨⟨chain_enter_impls c req res, hlen _ (chain_enter_impls c req res)⟩,
    ?_, ?_, ?_⟩
  · exact fun w hw => ⟨chain_exit_impls c req res w hw,
      hlen _ (chain_exit_impls c req res w hw)⟩
  · exact fun w hw => ⟨chain_error_impls c req res e w hw,
      hlen _ (chain_error_impls c req res e w hw)⟩
  · exact fun d hd => ⟨dispatch_impls c req res d hd,
      hlen _ (dispatch_impls c req res d hd)⟩

/-! ### Duplication (C7)

Modelled from the spec: the `Middleware` trait (with its `clone_box`
mechanism giving `Box<Middleware + Send>` a deep `Clone`) lives in
`middleware.rs`, which is not part of the sources; the spec requires that
duplicating a chain deeply duplicates each linked handler's internal state
rather than sharing it.  To make sharing versus deep copying observable we
place handler states in an explicit addressed store: a chain refers to its
handlers' states by address, duplication allocates fresh addresses and
copies the values, and a dispatch writes back only through its own chain's
addresses. -/

/-- A store of middleware internal states, addressed by `Nat`. -/
def Store (St : Type) := Nat → St

/-- A middleware whose internal state lives in the store at `addr`. -/
structure StoredMW (Req Res Err St : Type) where
  addr : Nat
  impl : MWImpl Req Res Err St

/-- A `StackChain` whose handler states live in a store. -/
structure StoredChain (Req Res Err St : Type) where
  stack : List (StoredMW Req Res Err St)
  status : ChainStatus

/-- Read a chain's handler states out of the store. -/
def loadChain (σ : Store St) (c : StoredChain Req Res Err St) :
    StackChain Req Res Err St :=
  ⟨c.stack.map (fun m => ⟨σ m.addr, m.impl⟩), c.status⟩

/-- The list of handler-state values a chain sees in a store. -/
def states (σ : Store St) (c : StoredChain Req Res Err St) : List St :=
  c.stack.map (fun m => σ m.addr)

/-- Write values back to the store at the given addresses (pairwise). -/
def writeBack : Store St → List Nat → List St → Store St
  | σ, [], _ => σ
  | σ, _ :: _, [] => σ
  | σ, a :: as, v :: vs =>
    writeBack (fun x => if x = a then v else σ x) as vs

/-- Modelled from the spec: deep duplication of a chain.  Fresh addresses
(above every address the original uses) are allocated for the duplicate and
the original's state values are copied into them; the handler behaviours
and the marker are copied unchanged. -/
def clone_chain (σ : Store St) (c : StoredChain Req Res Err St) :
    Store St × StoredChain Req Res Err St :=
  let base := (c.stack.map (fun m => m.addr)).foldr max 0 + 1
  let addrs := List.range' base c.stack.length
  (writeBack σ addrs (c.stack.map (fun m => σ m.addr)),
   ⟨List.zipWith (fun (m : StoredMW Req Res Err St) a =>
      StoredMW.mk a m.impl) c.stack addrs, c.status⟩)

/-- Run `dispatch` on a store-backed chain: load its handler states, run
the pure `dispatch`, and write the mutated states back through the chain's
own addresses. -/
def dispatchStore (σ : Store St) (c : StoredChain Req Res Err St)
    (req : Req) (res : Res) : Store St × Option (Status Err) :=
  match dispatch (loadChain σ c) req res with
  | some d =>
    (writeBack σ (c.stack.map (fun m => m.addr))
      (d.chain.stack.map (fun m => m.st)), some d.status)
  | none => (σ, none)

lemma writeBack_frame (σ : Store St) (as : List Nat) (vs : List St)
    (x : Nat) (hx : x ∉ as) : writeBack σ as vs x = σ x := by
  induction as generalizing σ vs with
  | nil => rfl
  | cons a as ih =>
    cases vs with
    | nil => rfl
    | cons v vs =>
      simp only [List.mem_cons, not_or] at hx
      rw [writeBack, ih _ _ hx.2]
      simp [hx.1]

lemma map_writeBack_self (σ : Store St) (as : List Nat) (vs : List St)
    (hn : as.Nodup) (hl : vs.length = as.length) :
    as.map (writeBack σ as vs) = vs := by
  induction as generalizing σ vs with
  | nil =>
    cases vs with
    | nil => rfl
    | cons v vs => simp at hl
  | cons a as ih =>
    cases vs with
    | nil => simp at hl
    | cons v vs =>
      simp only [List.nodup_cons] at hn
      simp only [List.length_cons, Nat.add_right_cancel_iff] at hl
      rw [List.map_cons, writeBack, writeBack_frame _ _ _ _ hn.1,
        ih _ _ hn.2 hl]
      simp

lemma states_eq (σ : Store St) (c : StoredChain Req Res Err St) :
    states σ c = (c.stack.map (fun m => m.addr)).map σ := by
  simp only [states, List.map_map]
  rfl

lemma mem_le_foldr_max (l : List Nat) (a : Nat) (h : a ∈ l) :
    a ≤ l.foldr max 0 := by
  induction l with
  | nil => cases h
  | cons b l ih =>
    rcases List.mem_cons.mp h with rfl | h'
    · exact le_max_left _ _
    · exact le_trans (ih h') (le_max_right _ _)

lemma zipWith_addr (s : List (StoredMW Req Res Err St)) (as : List Nat)
    (h : as.length = s.length) :
    (List.zipWith (fun (m : StoredMW Req Res Err St) a =>
      StoredMW.mk a m.impl) s as).map (fun m => m.addr) = as := by
  induction s generalizing as with
  | nil =>
    cases as with
    | nil => rfl
    | cons a as => simp at h
  | cons m s ih =>
    cases as with
    | nil => simp at h
    | cons a as =>
      simp only [List.length_cons, Nat.add_right_cancel_iff] at h
      simp [ih as h]

/-- C7: duplicating a chain yields an instance whose handler states start
as copies of the original's (first conjunct) without disturbing the
original (second); dispatching once on the duplicate leaves the original's
handler states unchanged (third), and dispatching once on the original
leaves the duplicate's handler states unchanged (fourth) — duplication is
deep, never shared. -/
theorem clone_independence (σ : Store St) (c : StoredChain Req Res Err St)
    (req : Req) (res : Res) :
    states (clone_chain σ c).1 (clone_chain σ c).2 = states σ c ∧
    states (clone_chain σ c).1 c = states σ c ∧
    states (dispatchStore (clone_chain σ c).1 (clone_chain σ c).2 req res).1
      c = states (clone_chain σ c).1 c ∧
    states (dispatchStore (clone_chain σ c).1 c req res).1
        (clone_chain σ c).2
      = states (clone_chain σ c).1 (clone_chain σ c).2 := by
  set base := (c.stack.map (fun m => m.addr)).foldr max 0 + 1 with hbase
  set addrs := List.range' base c.stack.length with haddrs
  have hσ' : (clone_chain σ c).1
      = writeBack σ addrs (c.stack.map (fun m => σ m.addr)) := rfl
  have hcl : (clone_chain σ c).2.stack
      = List.zipWith (fun (m : StoredMW Req Res Err St) a =>
          StoredMW.mk a m.impl) c.stack addrs := rfl
  have hclstat : (clone_chain σ c).2.status = c.status := rfl
  have hlen : addrs.length = c.stack.length := by
    simp [haddrs]
  have hcladdr : (clone_chain σ c).2.stack.map (fun m => m.addr) = addrs :=
    by rw [hcl]; exact zipWith_addr c.stack addrs hlen
  have hbasemem : ∀ m ∈ c.stack, m.addr ∉ addrs := by
    intro m hm hmem
    have h1 : m.addr ≤ (c.stack.map (fun m => m.addr)).foldr max 0 :=
      mem_le_foldr_max _ _ (List.mem_map_of_mem _ hm)
    have h2 : base ≤ m.addr := by
      rw [haddrs] at hmem
      exact (List.mem_range'_1.mp hmem).1
    omega
  have hclmem : ∀ x ∈ addrs, x ∉ c.stack.map (fun m => m.addr) := by
    intro x hx hmem
    have h1 : x ≤ (c.stack.map (fun m => m.addr)).foldr max 0 := by
      rcases List.mem_map.mp hmem with ⟨m, hm, rfl⟩
      exact mem_le_foldr_max _ _ hmem
    have h2 : base ≤ x := by
      rw [haddrs] at hx
      exact (List.mem_range'_1.mp hx).1
    omega
  have hframe : ∀ (σ₀ : Store St) (vs : List St),
      states (writeBack σ₀ addrs vs) c = states σ₀ c := by
    intro σ₀ vs
    refine List.map_congr_left ?_
    intro m hm
    exact writeBack_frame σ₀ addrs vs m.addr (hbasemem m hm)
  have hframe' : ∀ (σ₀ : Store St) (vs : List St),
      states (writeBack σ₀ (c.stack.map (fun m => m.addr)) vs)
          (clone_chain σ c).2
        = states σ₀ (clone_chain σ c).2 := by
    intro σ₀ vs
    refine List.map_congr_left ?_
    intro m hm
    refine writeBack_frame σ₀ _ vs m.addr ?_
    have : m.addr ∈ addrs := by
      rw [← hcladdr]
      exact List.mem_map_of_mem _ hm
    exact fun hmem => hclmem m.addr this hmem
  refine ⟨?_, ?_, ?_, ?_⟩
  · rw [states_eq, hcladdr, hσ']
    rw [map_writeBack_self σ addrs (c.stack.map (fun m => σ m.addr))
      (List.nodup_range' base c.stack.length) (by simp [hlen])]
    rfl
  · rw [hσ']
    exact hframe σ _
  · rcases hd : dispatch (loadChain (clone_chain σ c).1 (clone_chain σ c).2)
        req res with - | d <;> simp only [dispatchStore, hd]
    rw [hcladdr]
    exact hframe _ _
  · rcases hd : dispatch (loadChain (clone_chain σ c).1 c) req res
        with - | d <;> simp only [dispatchStore, hd]
    exact hframe' _ _

/-! ### Concrete instances used by the witnesses -/

/-- A middleware behaviour that always continues, counting its calls in its
state and marking the request/response so mutation is visible. -/
def contImpl : MWImpl Nat Nat Nat Nat where
  enter := fun st q r => (st + 1, q + 1, r, Status.Continue)
  exit := fun st q r => (st + 1, q, r + 1, Status.Continue)
  on_error := fun st q r e => (st + e, q, r)

/-- A middleware behaviour whose `enter` returns `Unwind`. -/
def unwindImpl : MWImpl Nat Nat Nat Nat where
  enter := fun st q r => (st + 1, q, r, Status.Unwind)
  exit := contImpl.exit
  on_error := contImpl.on_error

/-- A middleware behaviour whose `enter` returns `Error 7`. -/
def errorImpl : MWImpl Nat Nat Nat Nat where
  enter := fun st q r => (st + 1, q, r, Status.Error 7)
  exit := contImpl.exit
  on_error := contImpl.on_error

/-- continue, unwind, continue — handler 2 is never reached. -/
def unwindChain : StackChain Nat Nat Nat Nat :=
  ⟨[⟨0, contImpl⟩, ⟨0, unwindImpl⟩, ⟨0, contImpl⟩], ChainStatus.Unhandled⟩

/-- continue, error, continue — handler 2 is never reached. -/
def errorChain : StackChain Nat Nat Nat Nat :=
  ⟨[⟨0, contImpl⟩, ⟨0, errorImpl⟩, ⟨0, contImpl⟩], ChainStatus.Unhandled⟩

/-- Two handlers with the marker already at `Unwound 1`. -/
def markedUnwound : StackChain Nat Nat Nat Nat :=
  ⟨[⟨0, contImpl⟩, ⟨0, contImpl⟩], ChainStatus.Unwound 1⟩

/-- Two handlers with the marker already at `Errored 1`. -/
def markedErrored : StackChain Nat Nat Nat Nat :=
  ⟨[⟨0, contImpl⟩, ⟨0, contImpl⟩], ChainStatus.Errored 1⟩

/-- An extra middleware instance for the `link` witness. -/
def extraMW : Middleware Nat Nat Nat Nat := ⟨3, contImpl⟩

/-! ### Witnesses -/

/-- Witness for C1 at a chain whose second handler raises `Error 7`. -/
theorem dispatch_spec_witness :
    ∃ d, dispatch errorChain 0 0 = some d ∧
      d.status = (chain_enter errorChain 0 0).status ∧
      ∃ er, chain_error (chain_enter errorChain 0 0).chain
          (chain_enter errorChain 0 0).req (chain_enter errorChain 0 0).res 7
          = some er ∧
        d.trace = (chain_enter errorChain 0 0).trace ++ er.trace := by
  obtain ⟨d, h1, h2, -, h4⟩ := dispatch_spec errorChain 0 0
  obtain ⟨er, he1, -, -, -, he5, -⟩ := h4 7 rfl
  exact ⟨d, h1, h2, er, he1, he5⟩

/-- Witness for C2 at a chain whose second handler unwinds. -/
theorem chain_enter_spec_witness :
    (chain_enter unwindChain 0 0).status = Status.Unwind ∧
    (chain_enter unwindChain 0 0).chain.status = ChainStatus.Unwound 1 ∧
    (chain_enter unwindChain 0 0).trace
      = (List.range 2).map Event.enterCall ∧
    (chain_enter unwindChain 0 0).chain.stack.drop 2
      = unwindChain.stack.drop 2 :=
  ((chain_enter_spec unwindChain 0 0).2.2 1 (by decide) rfl).1 rfl

/-- Witness for C3 at a chain whose marker is `Unwound 1`. -/
theorem chain_exit_spec_witness :
    ∃ w, chain_exit markedUnwound 0 0 = some w ∧
      w.status = Status.Continue ∧
      w.trace = ((List.range 1).reverse).map Event.exitCall :=
  (chain_exit_spec markedUnwound 0 0).1 1 rfl (by decide)

/-- Witness for C4 at a chain whose marker is `Errored 1`, payload `5`. -/
theorem chain_error_spec_witness :
    ∃ w, chain_error markedErrored 0 0 5 = some w ∧
      w.trace = ((List.range 1).reverse).map (fun j => Event.onErrorCall j 5)
    :=
  (chain_error_spec markedErrored 0 0 5).1 1 rfl (by decide)

/-- Witness for C5: `chain_exit` aborts on an `Errored` marker and
`chain_error` aborts on a non-`Errored` marker; neither aborts when its
precondition holds. -/
theorem misuse_spec_witness :
    chain_exit markedErrored 0 0 = none ∧
    chain_error markedUnwound 0 0 5 = none ∧
    (chain_exit markedUnwound 0 0).isSome = true ∧
    (chain_error markedErrored 0 0 5).isSome = true := by
  refine ⟨(misuse_spec markedErrored 0 0 5).1 1 rfl,
    (misuse_spec markedUnwound 0 0 5).2.1 ?_,
    (misuse_spec markedUnwound 0 0 5).2.2.1 rfl ?_,
    (misuse_spec markedErrored 0 0 5).2.2.2.1 rfl 1 rfl⟩ <;>
    intro i h <;> simp [markedUnwound] at h

/-- Witness for C9: linking a third middleware onto a two-handler chain. -/
theorem link_spec_witness :
    (link markedUnwound extraMW).stack.length = 3 ∧
    (link markedUnwound extraMW).stack[0]? = markedUnwound.stack[0]? ∧
    (link markedUnwound extraMW).stack[2]? = some extraMW := by
  obtain ⟨h1, h2, h3, -⟩ := link_spec markedUnwound extraMW []
  exact ⟨h1, h2 0 (by decide), h3⟩

/-- Witness for C10: the exit traversal on `markedUnwound` keeps the same
handlers in the same positions (only the first handler's state changed). -/
theorem frame_spec_witness :
    ([⟨(1 : Nat), contImpl⟩, ⟨0, contImpl⟩] :
        List (Middleware Nat Nat Nat Nat)).map (fun m => m.impl)
      = markedUnwound.stack.map (fun m => m.impl) := by
  have hw : chain_exit markedUnwound 0 0 = some
      ⟨⟨[⟨1, contImpl⟩, ⟨0, contImpl⟩], ChainStatus.Unwound 1⟩, 0, 1,
        Status.Continue, [Event.exitCall 0]⟩ := rfl
  exact ((frame_spec markedUnwound 0 0 5).2.1 _ hw).1

end Iron
